import Mathlib

/-!
# Starpass v2.2 — password-history vault, shallow embedding

Embedding of the `PasswordHistoryManager` module of `history.js` (Starpass
v2.2): master-key derivation and verification, the session key cache, the
per-entry AEAD cipher, capacity enforcement, and the save / reveal flows.

Modelling conventions:
* Byte sequences (`Uint8Array`) are `List Nat` with entries reduced mod 256.
* `crypto.getRandomValues` is an explicit random stream threaded through the
  state: `Rng` holds an infinite byte stream and a read position; each call
  consumes the next `n` bytes and advances the position.
* A PBKDF2-derived `CryptoKey` is identified by its derivation inputs and
  parameters (passphrase, salt, iteration count, hash, cipher, key length,
  extractability).  PBKDF2 is deterministic, so two keys agree exactly when
  their derivation inputs agree; collisions of the real KDF are abstracted
  away.
* AES-GCM is modelled as an ideal AEAD: a ciphertext remembers the key and
  IV it was produced under together with the plaintext, and decryption
  succeeds exactly when it is offered the same key and the same IV
  (authentication-tag check), returning the plaintext.
* IndexedDB is explicit state: the `history` object store is a list of
  entries with an auto-increment key counter, the `meta` object store is a
  list of records keyed by `id` (`put` replaces by key, `get` looks up by
  key).  DOM / toast / spinner calls are UI glue outside the vault state and
  are elided; the `!db` guard is elided because the store is always present
  in the model.
-/

namespace Starpass

/-- `MAX_HISTORY = 100`. -/
def MAX_HISTORY : Nat := 100

/-- `SESSION_MINS = 30`. -/
def SESSION_MINS : Nat := 30

/-- `PBKDF2_ITERS = 250_000`. -/
def PBKDF2_ITERS : Nat := 250000

/-- `VERIFY_PLAIN = 'starpass-v2-verify'`. -/
def VERIFY_PLAIN : String := "starpass-v2-verify"

/-- The cryptographically secure random source: an infinite byte stream and
the position of the next unread byte. -/
structure Rng where
  stream : Nat → Nat
  pos : Nat

/-- `crypto.getRandomValues(new Uint8Array(n))`: read the next `n` bytes of
the stream and advance the position. -/
def getRandomValues (n : Nat) (r : Rng) : List Nat × Rng :=
  ((List.range n).map (fun i => r.stream (r.pos + i) % 256),
   { r with pos := r.pos + n })

/-- A derived `CryptoKey`, identified by its derivation inputs and the
parameters of `crypto.subtle.deriveKey`. -/
structure DerivedKey where
  passphrase : String
  salt : List Nat
  iterations : Nat
  hash : String
  cipher : String
  keyLength : Nat
  extractable : Bool
deriving DecidableEq, Repr

/-- `deriveKey(passphrase, salt)`: PBKDF2 over the passphrase with the given
salt, `PBKDF2_ITERS` iterations, SHA-512, yielding a non-extractable 256-bit
AES-GCM key. -/
def deriveKey (passphrase : String) (salt : List Nat) : DerivedKey :=
  { passphrase := passphrase
    salt := salt
    iterations := PBKDF2_ITERS
    hash := "SHA-512"
    cipher := "AES-GCM"
    keyLength := 256
    extractable := false }

/-- An AES-GCM ciphertext, idealized: it remembers the key and IV it was
produced under and the plaintext; decryption recovers the plaintext exactly
when offered the same key and IV. -/
structure Ciphertext where
  encKey : DerivedKey
  encIv : List Nat
  plaintext : String
deriving DecidableEq, Repr

/-- `aesEncrypt(plaintext, key)`: sample a fresh 12-byte IV from the random
source and encrypt under it, returning `{ iv, encryptedData }`. -/
def aesEncrypt (plaintext : String) (key : DerivedKey) (r : Rng) :
    (List Nat × Ciphertext) × Rng :=
  let s := getRandomValues 12 r
  ((s.1, { encKey := key, encIv := s.1, plaintext := plaintext }), s.2)

/-- `aesDecrypt(iv, encryptedData, key)`: AEAD open; succeeds exactly when
the offered key and IV are the ones the ciphertext was produced under. -/
def aesDecrypt (iv : List Nat) (encryptedData : Ciphertext)
    (key : DerivedKey) : Option String :=
  if encryptedData.encKey = key ∧ encryptedData.encIv = iv then
    some encryptedData.plaintext
  else none

/-- A row of the `meta` object store (keyPath `id`).  The master record is
the row with `id = 1`: `{ id: 1, salt, iv, encryptedData }`. -/
structure MasterRecord where
  id : Nat
  salt : List Nat
  iv : List Nat
  encryptedData : Ciphertext
deriving DecidableEq, Repr

/-- `get(k)` on the `meta` store: first row whose key equals `k`. -/
def metaGet (store : List MasterRecord) (k : Nat) : Option MasterRecord :=
  store.find? (fun x => x.id == k)

/-- `put(rec)` on the `meta` store: replace any row with the same key. -/
def metaPut (store : List MasterRecord) (rec : MasterRecord) :
    List MasterRecord :=
  store.filter (fun x => x.id != rec.id) ++ [rec]

/-- A row of the `history` object store:
`{ id, type, iv, encryptedData, timestamp }` with auto-increment `id`. -/
structure Entry where
  id : Nat
  type : String
  iv : List Nat
  encryptedData : Ciphertext
  timestamp : Nat
deriving DecidableEq, Repr

/-- The whole mutable state of the module: the two IndexedDB object stores
(with the auto-increment counter of `history`), the in-memory key cache
(`_cachedKey`, `_keyExpiry`), the random source, and the current clock
value `Date.now()`. -/
structure Vault where
  history : List Entry
  nextId : Nat
  metaStore : List MasterRecord
  cachedKey : Option DerivedKey
  keyExpiry : Option Nat
  rng : Rng
  now : Nat

/-- `getMasterRecord()`: `meta.get(1)`. -/
def getMasterRecord (v : Vault) : Option MasterRecord :=
  metaGet v.metaStore 1

/-- `deriveAndVerify(passphrase)`.  No record: create the master record and
return the key.  Record present: re-derive from the stored salt and try to
open the stored verification ciphertext; a failed open or a wrong marker
both raise `'incorrect-password'`.  The state is returned alongside the
verdict. -/
def deriveAndVerify (passphrase : String) (v : Vault) :
    Vault × Except String DerivedKey :=
  match getMasterRecord v with
  | none =>
    let s := getRandomValues 32 v.rng
    let key := deriveKey passphrase s.1
    let e := aesEncrypt VERIFY_PLAIN key s.2
    ({ v with
        metaStore := metaPut v.metaStore
          { id := 1, salt := s.1, iv := e.1.1, encryptedData := e.1.2 }
        rng := e.2 },
     Except.ok key)
  | some record =>
    let key := deriveKey passphrase record.salt
    match aesDecrypt record.iv record.encryptedData key with
    | some plain =>
      if plain = VERIFY_PLAIN then (v, Except.ok key)
      else (v, Except.error "incorrect-password")
    | none => (v, Except.error "incorrect-password")

/-- `getCachedKey()`: `(_cachedKey && _keyExpiry > Date.now()) ? _cachedKey
: null`. -/
def getCachedKey (v : Vault) : Option DerivedKey :=
  match v.cachedKey, v.keyExpiry with
  | some k, some e => if v.now < e then some k else none
  | _, _ => none

/-- `setCachedKey(k)`: cache the key and set the expiry to
`Date.now() + SESSION_MINS * 60_000`. -/
def setCachedKey (k : DerivedKey) (v : Vault) : Vault :=
  { v with cachedKey := some k, keyExpiry := some (v.now + SESSION_MINS * 60000) }

/-- `clearKeyCache()`: drop both the key and the expiry. -/
def clearKeyCache (v : Vault) : Vault :=
  { v with cachedKey := none, keyExpiry := none }

/-- `getMasterKey()`: cache first; on a miss consult the passphrase modal.
`passInput` is the modal's result (`none` = dismissed; the empty string is
also treated as cancelled by the `!passphrase` guard).  A verification
failure resolves `null` and leaves the state as `deriveAndVerify` left it. -/
def getMasterKey (passInput : Option String) (remember : Bool) (v : Vault) :
    Option DerivedKey × Vault :=
  match getCachedKey v with
  | some k => (some k, v)
  | none =>
    match passInput with
    | none => (none, v)
    | some passphrase =>
      if passphrase = "" then (none, v)
      else
        match deriveAndVerify passphrase v with
        | (v', Except.ok key) =>
          (some key, if remember then setCachedKey key v' else v')
        | (v', Except.error _) => (none, v')

/-- `enforceLimit()`: read all rows; if the count is at or above
`MAX_HISTORY`, sort ascending by `id` and delete the first
`count - MAX_HISTORY + 1` rows by key. -/
def enforceLimit (hist : List Entry) : List Entry :=
  if MAX_HISTORY ≤ hist.length then
    let doomed :=
      ((hist.mergeSort (fun a b => a.id ≤ b.id)).take
        (hist.length - MAX_HISTORY + 1)).map (fun e => e.id)
    hist.filter (fun e => !(doomed.contains e.id))
  else hist

/-- `addToHistory(value, type)`: abort on empty value; obtain the master key
(cache or prompt); on success run `enforceLimit`, encrypt the value under a
fresh IV and append the new row with the auto-increment id and the current
timestamp. -/
def addToHistory (value ty : String) (passInput : Option String)
    (remember : Bool) (v : Vault) : Vault :=
  if value = "" then v
  else
    match getMasterKey passInput remember v with
    | (none, v') => v'
    | (some key, v') =>
      let hist := enforceLimit v'.history
      let e := aesEncrypt value key v'.rng
      { v' with
          history := hist ++
            [{ id := v'.nextId, type := ty, iv := e.1.1,
               encryptedData := e.1.2, timestamp := v'.now }]
          nextId := v'.nextId + 1
          rng := e.2 }

/-- `viewItem(id)`: obtain the master key, look the row up, decrypt it.  A
failed AEAD open is caught and clears the key cache. -/
def viewItem (id : Nat) (passInput : Option String) (remember : Bool)
    (v : Vault) : Option String × Vault :=
  match getMasterKey passInput remember v with
  | (none, v') => (none, v')
  | (some key, v') =>
    match v'.history.find? (fun e => e.id == id) with
    | none => (none, v')
    | some item =>
      match aesDecrypt item.iv item.encryptedData key with
      | some plain => (some plain, v')
      | none => (none, clearKeyCache v')

/-- The state of a vault that has never been used: empty stores, empty
cache, auto-increment counter at 1. -/
def initVault (r : Rng) : Vault :=
  { history := [], nextId := 1, metaStore := [], cachedKey := none,
    keyExpiry := none, rng := r, now := 0 }

/-- Spec-side companion of `addToHistory`, following the specification's
phrase "the 100 most recently inserted": the same save flow with no
capacity eviction, so its history is the full sequence of inserted rows in
insertion order.  Used only to state the capacity claim by comparison. -/
def addToHistoryUnbounded (value ty : String) (passInput : Option String)
    (remember : Bool) (v : Vault) : Vault :=
  if value = "" then v
  else
    match getMasterKey passInput remember v with
    | (none, v') => v'
    | (some key, v') =>
      let e := aesEncrypt value key v'.rng
      { v' with
          history := v'.history ++
            [{ id := v'.nextId, type := ty, iv := e.1.1,
               encryptedData := e.1.2, timestamp := v'.now }]
          nextId := v'.nextId + 1
          rng := e.2 }

/-- One external save request: the value and type to save, the result of
the passphrase modal, the "remember session" flag, and the clock value at
which the request arrives. -/
structure SaveOp where
  value : String
  ty : String
  passInput : Option String
  remember : Bool
  time : Nat

/-- Run one save request against the vault at its arrival time. -/
def applySave (v : Vault) (op : SaveOp) : Vault :=
  addToHistory op.value op.ty op.passInput op.remember { v with now := op.time }

/-- Run a sequence of save requests. -/
def runSaves (ops : List SaveOp) (v : Vault) : Vault :=
  List.foldl applySave v ops

/-- Spec-side run: the same requests with no capacity eviction. -/
def applySaveUnbounded (v : Vault) (op : SaveOp) : Vault :=
  addToHistoryUnbounded op.value op.ty op.passInput op.remember
    { v with now := op.time }

/-- Spec-side fold of `applySaveUnbounded`. -/
def runSavesUnbounded (ops : List SaveOp) (v : Vault) : Vault :=
  List.foldl applySaveUnbounded v ops

/-- The last `n` elements of a list. -/
def lastN (n : Nat) (l : List α) : List α :=
  l.drop (l.length - n)

end Starpass

namespace Beta

/-- `PBKDF2_ITERATIONS = 100000` in the beta module `beta/history.js`. -/
def PBKDF2_ITERATIONS : Nat := 100000

/-- `deriveKeyFromPassphrase(passphrase, salt)` of `beta/history.js`:
PBKDF2 with `PBKDF2_ITERATIONS` iterations and SHA-256, yielding a
non-extractable 256-bit AES-GCM key (the `try/catch`-to-`null` wrapper is
elided since the subtle-crypto calls are modelled as pure). -/
def deriveKeyFromPassphrase (passphrase : String) (salt : List Nat) :
    Starpass.DerivedKey :=
  { passphrase := passphrase
    salt := salt
    iterations := PBKDF2_ITERATIONS
    hash := "SHA-256"
    cipher := "AES-GCM"
    keyLength := 256
    extractable := false }

end Beta

namespace Starpass

/-- Concrete random source for the concrete evaluations below: byte `i` of
the stream is `i`. -/
def rngW : Rng := { stream := fun i => i, pos := 0 }

/-- A vault initialized with passphrase `"pw"` from the fresh state. -/
def vaultW : Vault := (deriveAndVerify "pw" (initVault rngW)).1

/-- The master record `vaultW` holds: salt bytes `0..31`, IV bytes
`32..43`, the verification marker encrypted under the key derived from
`"pw"` and that salt. -/
def recW : MasterRecord :=
  { id := 1
    salt := (List.range 32).map (fun i => i % 256)
    iv := (List.range 12).map (fun i => (32 + i) % 256)
    encryptedData :=
      { encKey := deriveKey "pw" ((List.range 32).map (fun i => i % 256))
        encIv := (List.range 12).map (fun i => (32 + i) % 256)
        plaintext := VERIFY_PLAIN } }

/-- A key cached in the concrete reveal scenario. -/
def keyW : DerivedKey := deriveKey "pw" [1, 2]

/-- A key under which the corrupt entry of the reveal scenario was
actually encrypted — different passphrase, so the AEAD open fails. -/
def keyBad : DerivedKey := deriveKey "other" [1, 2]

/-- A history row whose ciphertext does not authenticate under `keyW`. -/
def entryBad : Entry :=
  { id := 1
    type := "password"
    iv := [0, 0, 0, 0, 0, 0, 0, 0, 0, 0, 0, 0]
    encryptedData :=
      { encKey := keyBad
        encIv := [0, 0, 0, 0, 0, 0, 0, 0, 0, 0, 0, 0]
        plaintext := "secret" }
    timestamp := 0 }

/-- A vault with `keyW` live in the session cache and the single corrupt
row `entryBad` in the history store. -/
def vaultC9 : Vault :=
  { history := [entryBad], nextId := 2, metaStore := [],
    cachedKey := some keyW, keyExpiry := some 1, rng := rngW, now := 0 }

/-- Replace the history store of a vault, keeping everything else. -/
def withHistory (v : Vault) (h : List Entry) : Vault :=
  { v with history := h }

/-- When a master record exists, `deriveAndVerify` leaves the whole state
untouched: the only writes in its body are on the no-record path. -/
theorem deriveAndVerify_state_of_record (p : String) (v : Vault)
    (rec : MasterRecord) (hrec : getMasterRecord v = some rec) :
    (deriveAndVerify p v).1 = v := by
  unfold deriveAndVerify
  rw [hrec]
  cases hd : aesDecrypt rec.iv rec.encryptedData (deriveKey p rec.salt) with
  | none => simp [hd]
  | some s => by_cases hs : s = VERIFY_PLAIN <;> simp [hd, hs]

/-- `meta.get` after `meta.put` of a record finds exactly that record. -/
theorem metaGet_metaPut (store : List MasterRecord) (rec : MasterRecord) :
    metaGet (metaPut store rec) rec.id = some rec := by
  unfold metaGet metaPut
  rw [List.find?_append]
  have h1 : List.find? (fun x => x.id == rec.id)
      (store.filter (fun x => x.id != rec.id)) = none := by
    rw [List.find?_eq_none]
    intro x hx
    have hpx := List.of_mem_filter hx
    simpa using hpx
  rw [h1]
  simp

/-- `deriveAndVerify` never touches the history store, the auto-increment
counter, the key cache, or the clock. -/
theorem deriveAndVerify_frame (p : String) (v : Vault) :
    (deriveAndVerify p v).1.history = v.history ∧
    (deriveAndVerify p v).1.nextId = v.nextId ∧
    (deriveAndVerify p v).1.now = v.now := by
  cases hm : getMasterRecord v with
  | some rec =>
    rw [deriveAndVerify_state_of_record p v rec hm]
    exact ⟨rfl, rfl, rfl⟩
  | none =>
    unfold deriveAndVerify
    rw [hm]
    exact ⟨rfl, rfl, rfl⟩

/-- `getMasterKey` never touches the history store, the auto-increment
counter, or the clock. -/
theorem getMasterKey_frame (p? : Option String) (rem : Bool) (v : Vault) :
    (getMasterKey p? rem v).2.history = v.history ∧
    (getMasterKey p? rem v).2.nextId = v.nextId ∧
    (getMasterKey p? rem v).2.now = v.now := by
  unfold getMasterKey
  cases hc : getCachedKey v with
  | some k => exact ⟨rfl, rfl, rfl⟩
  | none =>
    cases p? with
    | none => exact ⟨rfl, rfl, rfl⟩
    | some pass =>
      by_cases hp : pass = ""
      · simp [hp]
      · simp only [if_neg hp]
        have hdv := deriveAndVerify_frame pass v
        cases hd : deriveAndVerify pass v with
        | mk v' res =>
          rw [hd] at hdv
          cases res with
          | ok key =>
            cases rem with
            | true => exact ⟨hdv.1, hdv.2.1, hdv.2.2⟩
            | false => exact ⟨hdv.1, hdv.2.1, hdv.2.2⟩
          | error msg => exact ⟨hdv.1, hdv.2.1, hdv.2.2⟩

/-- `deriveAndVerify` acts on the non-history part of the state: running it
with a different history store runs it unchanged and carries the history
through. -/
theorem deriveAndVerify_withHistory (p : String) (v : Vault)
    (h : List Entry) :
    deriveAndVerify p (withHistory v h) =
      (withHistory (deriveAndVerify p v).1 h, (deriveAndVerify p v).2) := by
  cases hm : getMasterRecord v with
  | none =>
    have hm2 : getMasterRecord (withHistory v h) = none := hm
    unfold deriveAndVerify
    rw [hm, hm2]
    rfl
  | some rec =>
    have hm2 : getMasterRecord (withHistory v h) = some rec := hm
    unfold deriveAndVerify
    rw [hm, hm2]
    cases hd : aesDecrypt rec.iv rec.encryptedData (deriveKey p rec.salt) with
    | none => simp [hd]
    | some s =>
      by_cases hs : s = VERIFY_PLAIN <;> simp [hd, hs]

/-- `getMasterKey` acts on the non-history part of the state. -/
theorem getMasterKey_withHistory (p? : Option String) (rem : Bool)
    (v : Vault) (h : List Entry) :
    getMasterKey p? rem (withHistory v h) =
      ((getMasterKey p? rem v).1, withHistory (getMasterKey p? rem v).2 h) := by
  unfold getMasterKey
  have hc : getCachedKey (withHistory v h) = getCachedKey v := rfl
  rw [hc]
  cases hck : getCachedKey v with
  | some k => rfl
  | none =>
    cases p? with
    | none => rfl
    | some pass =>
      by_cases hp : pass = ""
      · simp [hp]
      · simp only [if_neg hp]
        rw [deriveAndVerify_withHistory]
        cases hd : deriveAndVerify pass v with
        | mk v' res =>
          cases res with
          | ok key =>
            cases rem with
            | true => rfl
            | false => rfl
          | error msg => rfl

/-- On a list whose ids are strictly increasing, deleting the rows whose id
occurs among the first `k` ids removes exactly the first `k` rows. -/
theorem filter_not_take_ids (l : List Entry)
    (hs : List.Pairwise (fun a b => a.id < b.id) l) (k : Nat) :
    l.filter
      (fun e => !(((l.take k).map (fun x => x.id)).contains e.id)) =
      l.drop k := by
  induction l generalizing k with
  | nil => cases k <;> simp
  | cons a t ih =>
    cases k with
    | zero => simp
    | succ k =>
      have ha : ∀ b ∈ t, a.id < b.id := fun b hb =>
        (List.pairwise_cons.mp hs).1 b hb
      have ht : List.Pairwise (fun a b => a.id < b.id) t :=
        (List.pairwise_cons.mp hs).2
      have hcong : t.filter
          (fun e => !((e.id == a.id) ||
            (((t.take k).map (fun x => x.id)).contains e.id))) =
          t.filter
          (fun e => !(((t.take k).map (fun x => x.id)).contains e.id)) := by
        apply List.filter_congr
        intro x hx
        have hne : (x.id == a.id) = false := by
          have hlt := ha x hx
          simp only [beq_eq_false_iff_ne]
          omega
        rw [hne, Bool.false_or]
      simp only [List.take_succ_cons, List.map_cons, List.filter_cons,
        List.contains_cons, beq_self_eq_true, Bool.true_or, Bool.not_true,
        List.drop_succ_cons]
      rw [if_neg (by simp)]
      rw [hcong, ih ht k]

/-- On a history whose ids are strictly increasing, `enforceLimit` is: when
the row count is at or above the cap, drop the first `count - cap + 1`
rows (the oldest by id); otherwise do nothing. -/
theorem enforceLimit_of_sorted (l : List Entry)
    (hs : List.Pairwise (fun a b => a.id < b.id) l) :
    enforceLimit l =
      if MAX_HISTORY ≤ l.length then
        l.drop (l.length - MAX_HISTORY + 1)
      else l := by
  unfold enforceLimit
  by_cases hl : MAX_HISTORY ≤ l.length
  · rw [if_pos hl, if_pos hl]
    have hle : List.Pairwise
        (fun a b : Entry => decide (a.id ≤ b.id) = true) l := by
      refine hs.imp ?_
      intro a b hab
      simpa using Nat.le_of_lt hab
    rw [List.mergeSort_of_sorted hle]
    exact filter_not_take_ids l hs _
  · rw [if_neg hl, if_neg hl]

/-- The last `n` entries of a list keep strictly increasing ids. -/
theorem lastN_pairwise (n : Nat) (l : List Entry)
    (hs : List.Pairwise (fun a b => a.id < b.id) l) :
    List.Pairwise (fun a b => a.id < b.id) (lastN n l) :=
  List.Pairwise.sublist (List.drop_sublist _ _) hs

/-- Length of `lastN`. -/
theorem length_lastN (n : Nat) (l : List α) :
    (lastN n l).length = l.length - (l.length - n) := by
  unfold lastN
  exact List.length_drop _ _

/-- The inductive step of capacity enforcement: running `enforceLimit` on
the kept suffix and appending the new row keeps exactly the last
`MAX_HISTORY` rows of the unbounded insertion sequence. -/
theorem enforceLimit_lastN_append (H : List Entry)
    (hs : List.Pairwise (fun a b => a.id < b.id) H) (e : Entry) :
    enforceLimit (lastN MAX_HISTORY H) ++ [e] =
      lastN MAX_HISTORY (H ++ [e]) := by
  have hM : MAX_HISTORY = 100 := rfl
  have hsl : List.Pairwise (fun a b => a.id < b.id) (lastN MAX_HISTORY H) :=
    lastN_pairwise _ _ hs
  rw [enforceLimit_of_sorted _ hsl]
  by_cases hn : MAX_HISTORY ≤ H.length
  · have hlen : (lastN MAX_HISTORY H).length = MAX_HISTORY := by
      rw [length_lastN]
      omega
    rw [hlen, if_pos (le_refl _)]
    have h1 : MAX_HISTORY - MAX_HISTORY + 1 = 1 := by omega
    rw [h1]
    have hm : (H ++ [e]).length - MAX_HISTORY = H.length - MAX_HISTORY + 1 := by
      rw [List.length_append]
      simp only [List.length_cons, List.length_nil]
      omega
    unfold lastN
    rw [hm, List.drop_append_of_le_length (by omega), List.drop_drop]
  · have h0 : H.length - MAX_HISTORY = 0 := by omega
    have hlast : lastN MAX_HISTORY H = H := by
      unfold lastN
      rw [h0, List.drop_zero]
    rw [hlast, if_neg hn]
    have hm0 : (H ++ [e]).length - MAX_HISTORY = 0 := by
      rw [List.length_append]
      simp only [List.length_cons, List.length_nil]
      omega
    unfold lastN
    rw [hm0, List.drop_zero]

/-- Coupled step: running the real save on the capped history (the last
`MAX_HISTORY` rows of the unbounded history) mirrors running the
spec-side unbounded save, capping afterwards; strict id ordering and the
id bound are preserved on the unbounded side. -/
theorem addToHistory_coupled (value ty : String) (p? : Option String)
    (rem : Bool) (w : Vault)
    (hsort : List.Pairwise (fun a b => a.id < b.id) w.history)
    (hbound : ∀ e ∈ w.history, e.id < w.nextId) :
    addToHistory value ty p? rem
        (withHistory w (lastN MAX_HISTORY w.history)) =
      withHistory (addToHistoryUnbounded value ty p? rem w)
        (lastN MAX_HISTORY
          (addToHistoryUnbounded value ty p? rem w).history) ∧
    List.Pairwise (fun a b => a.id < b.id)
      (addToHistoryUnbounded value ty p? rem w).history ∧
    (∀ e ∈ (addToHistoryUnbounded value ty p? rem w).history,
      e.id < (addToHistoryUnbounded value ty p? rem w).nextId) := by
  by_cases hv : value = ""
  · unfold addToHistory addToHistoryUnbounded
    rw [if_pos hv, if_pos hv]
    exact ⟨rfl, hsort, hbound⟩
  · unfold addToHistory addToHistoryUnbounded
    rw [if_neg hv, if_neg hv]
    rw [getMasterKey_withHistory]
    have hfr := getMasterKey_frame p? rem w
    cases hgk : getMasterKey p? rem w with
    | mk k? w₁ =>
      rw [hgk] at hfr
      obtain ⟨hfh, hfn, hft⟩ := hfr
      cases k? with
      | none =>
        refine ⟨?_, by rw [hfh]; exact hsort, ?_⟩
        · simp only [withHistory]
          rw [hfh]
        · intro e he
          rw [hfn]
          exact hbound e (by rw [hfh] at he; exact he)
      | some key =>
        refine ⟨?_, ?_, ?_⟩
        · simp only [withHistory]
          rw [hfh, hfn, hft]
          have happ := enforceLimit_lastN_append w.history hsort
            { id := w.nextId, type := ty
              iv := (aesEncrypt value key w₁.rng).1.1
              encryptedData := (aesEncrypt value key w₁.rng).1.2
              timestamp := w.now }
          rw [happ]
        · simp only []
          rw [hfh, hfn]
          rw [List.pairwise_append]
          refine ⟨hsort, List.pairwise_singleton _ _, ?_⟩
          intro a ha b hb
          rw [List.mem_singleton] at hb
          subst hb
          exact hbound a ha
        · simp only []
          intro e he
          rw [hfh, hfn] at he
          rw [hfn]
          rcases List.mem_append.mp he with h | h
          · exact Nat.lt_succ_of_lt (hbound e h)
          · rw [List.mem_singleton] at h
            subst h
            exact Nat.lt_succ_self _

/-- Coupled fold: a whole run of saves on the capped vault mirrors the
unbounded run capped at the end, preserving the ordering invariants. -/
theorem runSaves_coupled (ops : List SaveOp) (w : Vault)
    (hsort : List.Pairwise (fun a b => a.id < b.id) w.history)
    (hbound : ∀ e ∈ w.history, e.id < w.nextId) :
    runSaves ops (withHistory w (lastN MAX_HISTORY w.history)) =
      withHistory (runSavesUnbounded ops w)
        (lastN MAX_HISTORY (runSavesUnbounded ops w).history) ∧
    List.Pairwise (fun a b => a.id < b.id)
      (runSavesUnbounded ops w).history ∧
    (∀ e ∈ (runSavesUnbounded ops w).history,
      e.id < (runSavesUnbounded ops w).nextId) := by
  induction ops generalizing w with
  | nil => exact ⟨rfl, hsort, hbound⟩
  | cons op ops ih =>
    have hstep := addToHistory_coupled op.value op.ty op.passInput
      op.remember { w with now := op.time } hsort hbound
    have hu := ih (addToHistoryUnbounded op.value op.ty op.passInput
      op.remember { w with now := op.time }) hstep.2.1 hstep.2.2
    refine ⟨?_, hu.2.1, hu.2.2⟩
    calc runSaves (op :: ops) (withHistory w (lastN MAX_HISTORY w.history))
        = runSaves ops (addToHistory op.value op.ty op.passInput op.remember
            (withHistory { w with now := op.time }
              (lastN MAX_HISTORY ({ w with now := op.time } : Vault).history))) :=
          rfl
      _ = runSaves ops (withHistory
            (addToHistoryUnbounded op.value op.ty op.passInput op.remember
              { w with now := op.time })
            (lastN MAX_HISTORY
              (addToHistoryUnbounded op.value op.ty op.passInput op.remember
                { w with now := op.time }).history)) := by rw [hstep.1]
      _ = withHistory (runSavesUnbounded (op :: ops) w)
            (lastN MAX_HISTORY (runSavesUnbounded (op :: ops) w).history) :=
          hu.1

end Starpass

namespace Starpass

/-- C4 (counterexample): the claim quantifies over every derivation the
program performs, but the derivation in `beta/history.js` runs PBKDF2 with
100,000 iterations (below 250,000) and SHA-256 (not SHA-512-class). -/
theorem beta_derivation_below_spec_params :
    (Beta.deriveKeyFromPassphrase "x" [0]).iterations = 100000 ∧
    (Beta.deriveKeyFromPassphrase "x" [0]).iterations < 250000 ∧
    (Beta.deriveKeyFromPassphrase "x" [0]).hash = "SHA-256" := by
  refine ⟨rfl, ?_, rfl⟩
  decide

/-- C4 (amended): every key derivation of the main vault module
(`deriveKey` in `history.js` v2.2) uses PBKDF2 with an iteration count of
at least 250,000 (exactly `PBKDF2_ITERS`), SHA-512, and produces a
fixed-length non-extractable 256-bit AES-GCM key; there is no fast path
that skips the iteration count. -/
theorem deriveKey_pbkdf2_params (p : String) (s : List Nat) :
    (deriveKey p s).iterations = PBKDF2_ITERS ∧
    250000 ≤ PBKDF2_ITERS ∧
    (deriveKey p s).hash = "SHA-512" ∧
    (deriveKey p s).cipher = "AES-GCM" ∧
    (deriveKey p s).keyLength = 256 ∧
    (deriveKey p s).extractable = false := by
  refine ⟨rfl, ?_, rfl, rfl, rfl, rfl⟩
  decide

/-- C5: round-trip — decrypting the `{ iv, encryptedData }` pair produced
by `aesEncrypt(P, K)` with the same key `K` returns `P`, for every
plaintext, key and random-source state. -/
theorem aesEncrypt_aesDecrypt_roundtrip (p : String) (key : DerivedKey)
    (r : Rng) :
    aesDecrypt (aesEncrypt p key r).1.1 (aesEncrypt p key r).1.2 key =
      some p := by
  simp [aesEncrypt, aesDecrypt]

/-- C6: every `aesEncrypt` call samples a fresh 12-byte nonce from the
secure random source — exactly the next 12 unread bytes of the stream —
uses that very nonce for the encryption, returns it alongside the
ciphertext, and advances the source past it, so the next encryption
samples from the 12 positions after it and no call reuses a nonce drawn
for an earlier encryption or taken from stored data. -/
theorem aesEncrypt_fresh_nonce (p : String) (key : DerivedKey) (r : Rng) :
    (aesEncrypt p key r).1.1 =
      (List.range 12).map (fun i => r.stream (r.pos + i) % 256) ∧
    (aesEncrypt p key r).1.1.length = 12 ∧
    (aesEncrypt p key r).1.2.encIv = (aesEncrypt p key r).1.1 ∧
    (aesEncrypt p key r).1.2.plaintext = p ∧
    (aesEncrypt p key r).2.pos = r.pos + 12 ∧
    (∀ q k2, (aesEncrypt q k2 (aesEncrypt p key r).2).1.1 =
      (List.range 12).map (fun i => r.stream (r.pos + 12 + i) % 256)) := by
  refine ⟨rfl, by simp [aesEncrypt, getRandomValues], rfl, rfl, rfl, ?_⟩
  intro q k2
  simp [aesEncrypt, getRandomValues]

/-- C7: `getCachedKey` returns the cached key exactly when one is present
and the clock is strictly before the stored expiry, and otherwise returns
`none`; `setCachedKey` overwrites the cached key and resets the expiry to
now plus 30 minutes (`SESSION_MINS * 60_000` ms); `clearKeyCache`
unconditionally discards both. -/
theorem key_cache_get_set_clear (v : Vault) (k : DerivedKey) :
    (∀ k', getCachedKey v = some k' ↔
      (v.cachedKey = some k' ∧ ∃ e, v.keyExpiry = some e ∧ v.now < e)) ∧
    (setCachedKey k v).cachedKey = some k ∧
    (setCachedKey k v).keyExpiry = some (v.now + SESSION_MINS * 60000) ∧
    SESSION_MINS = 30 ∧
    (clearKeyCache v).cachedKey = none ∧
    (clearKeyCache v).keyExpiry = none := by
  refine ⟨?_, rfl, rfl, rfl, rfl, rfl⟩
  intro k'
  obtain ⟨hist, nid, meta, ck, ke, rg, now⟩ := v
  cases ck with
  | none => simp [getCachedKey]
  | some a =>
    cases ke with
    | none => simp [getCachedKey]
    | some e =>
      by_cases ht : now < e
      · simp [getCachedKey, ht]
      · simp [getCachedKey, ht]

/-- C1: on an initialized vault, `deriveAndVerify(passphrase)` returns the
derived key exactly when opening the stored verification ciphertext with the
derived key yields the fixed marker; a failed AEAD open and a wrong
recovered plaintext both produce the one error `'incorrect-password'`, so
the two failure causes are indistinguishable to the caller, and every
outcome is either the key or that single error. -/
theorem deriveAndVerify_initialized_verdict (p : String) (v : Vault)
    (rec : MasterRecord) (hrec : getMasterRecord v = some rec) :
    (aesDecrypt rec.iv rec.encryptedData (deriveKey p rec.salt) =
        some VERIFY_PLAIN →
      (deriveAndVerify p v).2 = Except.ok (deriveKey p rec.salt)) ∧
    (aesDecrypt rec.iv rec.encryptedData (deriveKey p rec.salt) = none →
      (deriveAndVerify p v).2 = Except.error "incorrect-password") ∧
    (∀ s, aesDecrypt rec.iv rec.encryptedData (deriveKey p rec.salt) =
        some s → s ≠ VERIFY_PLAIN →
      (deriveAndVerify p v).2 = Except.error "incorrect-password") ∧
    ((deriveAndVerify p v).2 = Except.ok (deriveKey p rec.salt) ∨
      (deriveAndVerify p v).2 = Except.error "incorrect-password") := by
  unfold deriveAndVerify
  rw [hrec]
  cases hd : aesDecrypt rec.iv rec.encryptedData (deriveKey p rec.salt) with
  | none => simp [hd]
  | some s =>
    by_cases hs : s = VERIFY_PLAIN
    · simp [hd, hs]
    · simp only [hd]
      refine ⟨?_, ?_, ?_, ?_⟩
      · intro h
        exact absurd (Option.some_inj.mp h) hs
      · intro h
        exact absurd h (by simp)
      · intro s' hs' _
        simp [if_neg hs]
      · right
        simp [if_neg hs]

/-- C1 witness: the initialized vault `vaultW` with its record `recW`. -/
theorem deriveAndVerify_initialized_verdict_witness :
    (aesDecrypt recW.iv recW.encryptedData (deriveKey "pw" recW.salt) =
        some VERIFY_PLAIN →
      (deriveAndVerify "pw" vaultW).2 =
        Except.ok (deriveKey "pw" recW.salt)) ∧
    (aesDecrypt recW.iv recW.encryptedData (deriveKey "pw" recW.salt) =
        none →
      (deriveAndVerify "pw" vaultW).2 =
        Except.error "incorrect-password") ∧
    (∀ s, aesDecrypt recW.iv recW.encryptedData (deriveKey "pw" recW.salt) =
        some s → s ≠ VERIFY_PLAIN →
      (deriveAndVerify "pw" vaultW).2 =
        Except.error "incorrect-password") ∧
    ((deriveAndVerify "pw" vaultW).2 =
        Except.ok (deriveKey "pw" recW.salt) ∨
      (deriveAndVerify "pw" vaultW).2 =
        Except.error "incorrect-password") :=
  deriveAndVerify_initialized_verdict "pw" vaultW recW (by decide)

/-- C3: on an uninitialized vault, `deriveAndVerify(passphrase)` samples a
fresh 32-byte salt (≥ 16 bytes), derives the key from the passphrase and
that salt, encrypts the fixed marker under a freshly sampled nonce,
persists `{ id: 1, salt, iv, encryptedData }` as the singleton master
record, and returns the key; every subsequent call finds the record, so
the uninitialized-to-initialized transition happens at most once — a
second call leaves the meta store unchanged. -/
theorem deriveAndVerify_uninitialized_init (p : String) (v : Vault)
    (hnone : getMasterRecord v = none) :
    (getRandomValues 32 v.rng).1.length = 32 ∧
    16 ≤ (getRandomValues 32 v.rng).1.length ∧
    (deriveAndVerify p v).2 =
      Except.ok (deriveKey p (getRandomValues 32 v.rng).1) ∧
    (deriveAndVerify p v).1.metaStore = metaPut v.metaStore
      { id := 1
        salt := (getRandomValues 32 v.rng).1
        iv := (getRandomValues 12 (getRandomValues 32 v.rng).2).1
        encryptedData :=
          { encKey := deriveKey p (getRandomValues 32 v.rng).1
            encIv := (getRandomValues 12 (getRandomValues 32 v.rng).2).1
            plaintext := VERIFY_PLAIN } } ∧
    getMasterRecord (deriveAndVerify p v).1 = some
      { id := 1
        salt := (getRandomValues 32 v.rng).1
        iv := (getRandomValues 12 (getRandomValues 32 v.rng).2).1
        encryptedData :=
          { encKey := deriveKey p (getRandomValues 32 v.rng).1
            encIv := (getRandomValues 12 (getRandomValues 32 v.rng).2).1
            plaintext := VERIFY_PLAIN } } ∧
    (∀ q, (deriveAndVerify q (deriveAndVerify p v).1).1.metaStore =
      (deriveAndVerify p v).1.metaStore) := by
  have hlen : (getRandomValues 32 v.rng).1.length = 32 := by
    simp [getRandomValues]
  have hstate : deriveAndVerify p v =
      ({ v with
          metaStore := metaPut v.metaStore
            { id := 1
              salt := (getRandomValues 32 v.rng).1
              iv := (getRandomValues 12 (getRandomValues 32 v.rng).2).1
              encryptedData :=
                { encKey := deriveKey p (getRandomValues 32 v.rng).1
                  encIv := (getRandomValues 12 (getRandomValues 32 v.rng).2).1
                  plaintext := VERIFY_PLAIN } }
          rng := (getRandomValues 12 (getRandomValues 32 v.rng).2).2 },
        Except.ok (deriveKey p (getRandomValues 32 v.rng).1)) := by
    unfold deriveAndVerify
    rw [hnone]
    rfl
  have hget : getMasterRecord (deriveAndVerify p v).1 = some
      { id := 1
        salt := (getRandomValues 32 v.rng).1
        iv := (getRandomValues 12 (getRandomValues 32 v.rng).2).1
        encryptedData :=
          { encKey := deriveKey p (getRandomValues 32 v.rng).1
            encIv := (getRandomValues 12 (getRandomValues 32 v.rng).2).1
            plaintext := VERIFY_PLAIN } } := by
    rw [hstate]
    exact metaGet_metaPut v.metaStore _
  refine ⟨hlen, by rw [hlen]; decide, by rw [hstate], by rw [hstate], hget, ?_⟩
  intro q
  rw [deriveAndVerify_state_of_record q (deriveAndVerify p v).1 _ hget]

/-- C3 witness: the fresh vault `initVault rngW`. -/
theorem deriveAndVerify_uninitialized_init_witness :
    (getRandomValues 32 (initVault rngW).rng).1.length = 32 ∧
    16 ≤ (getRandomValues 32 (initVault rngW).rng).1.length ∧
    (deriveAndVerify "pw" (initVault rngW)).2 =
      Except.ok (deriveKey "pw" (getRandomValues 32 (initVault rngW).rng).1) ∧
    (deriveAndVerify "pw" (initVault rngW)).1.metaStore =
      metaPut (initVault rngW).metaStore
      { id := 1
        salt := (getRandomValues 32 (initVault rngW).rng).1
        iv := (getRandomValues 12 (getRandomValues 32 (initVault rngW).rng).2).1
        encryptedData :=
          { encKey := deriveKey "pw" (getRandomValues 32 (initVault rngW).rng).1
            encIv := (getRandomValues 12 (getRandomValues 32 (initVault rngW).rng).2).1
            plaintext := VERIFY_PLAIN } } ∧
    getMasterRecord (deriveAndVerify "pw" (initVault rngW)).1 = some
      { id := 1
        salt := (getRandomValues 32 (initVault rngW).rng).1
        iv := (getRandomValues 12 (getRandomValues 32 (initVault rngW).rng).2).1
        encryptedData :=
          { encKey := deriveKey "pw" (getRandomValues 32 (initVault rngW).rng).1
            encIv := (getRandomValues 12 (getRandomValues 32 (initVault rngW).rng).2).1
            plaintext := VERIFY_PLAIN } } ∧
    (∀ q, (deriveAndVerify q (deriveAndVerify "pw" (initVault rngW)).1).1.metaStore =
      (deriveAndVerify "pw" (initVault rngW)).1.metaStore) :=
  deriveAndVerify_uninitialized_init "pw" (initVault rngW) rfl

/-- C10: when a master record already exists, `deriveAndVerify` leaves the
persistent store completely unchanged — the meta store (master record) and
the entries store are the same after the call as before — whatever the
verdict. -/
theorem deriveAndVerify_existing_frame (p : String) (v : Vault)
    (rec : MasterRecord) (hrec : getMasterRecord v = some rec) :
    (deriveAndVerify p v).1.metaStore = v.metaStore ∧
    (deriveAndVerify p v).1.history = v.history := by
  rw [deriveAndVerify_state_of_record p v rec hrec]
  exact ⟨rfl, rfl⟩

/-- C10 witness: the initialized vault `vaultW`, probed with a different
passphrase. -/
theorem deriveAndVerify_existing_frame_witness :
    (deriveAndVerify "wrong" vaultW).1.metaStore = vaultW.metaStore ∧
    (deriveAndVerify "wrong" vaultW).1.history = vaultW.history :=
  deriveAndVerify_existing_frame "wrong" vaultW recW (by decide)

/-- C8: a save whose passphrase prompt is cancelled (modal dismissed, or no
passphrase supplied) aborts with no side effects: the entries store, the
meta store and the session key cache are all unchanged. -/
theorem addToHistory_cancelled_no_effects (value ty : String)
    (passInput : Option String) (remember : Bool) (v : Vault)
    (hmiss : getCachedKey v = none)
    (hcancel : passInput = none ∨ passInput = some "") :
    (addToHistory value ty passInput remember v).history = v.history ∧
    (addToHistory value ty passInput remember v).metaStore = v.metaStore ∧
    (addToHistory value ty passInput remember v).cachedKey = v.cachedKey ∧
    (addToHistory value ty passInput remember v).keyExpiry = v.keyExpiry := by
  have hgm : getMasterKey passInput remember v = (none, v) := by
    unfold getMasterKey
    rw [hmiss]
    rcases hcancel with h | h
    · rw [h]
    · rw [h]
      simp
  have hall : addToHistory value ty passInput remember v = v := by
    unfold addToHistory
    by_cases hv : value = ""
    · rw [if_pos hv]
    · rw [if_neg hv, hgm]
  rw [hall]
  exact ⟨rfl, rfl, rfl, rfl⟩

/-- C8 witness: the fresh vault, prompt dismissed. -/
theorem addToHistory_cancelled_no_effects_witness :
    (addToHistory "x" "password" none false (initVault rngW)).history =
      (initVault rngW).history ∧
    (addToHistory "x" "password" none false (initVault rngW)).metaStore =
      (initVault rngW).metaStore ∧
    (addToHistory "x" "password" none false (initVault rngW)).cachedKey =
      (initVault rngW).cachedKey ∧
    (addToHistory "x" "password" none false (initVault rngW)).keyExpiry =
      (initVault rngW).keyExpiry :=
  addToHistory_cancelled_no_effects "x" "password" none false
    (initVault rngW) rfl (Or.inl rfl)

/-- C9: whenever the entry-level AEAD open fails during `viewItem`, the
reveal returns nothing and the session key cache is cleared, so the next
operation must re-derive the key. -/
theorem viewItem_decrypt_failure_clears_cache (id : Nat)
    (passInput : Option String) (remember : Bool) (v : Vault)
    (key : DerivedKey) (v₁ : Vault) (item : Entry)
    (hkey : getMasterKey passInput remember v = (some key, v₁))
    (hitem : v₁.history.find? (fun e => e.id == id) = some item)
    (hfail : aesDecrypt item.iv item.encryptedData key = none) :
    (viewItem id passInput remember v).1 = none ∧
    (viewItem id passInput remember v).2.cachedKey = none ∧
    (viewItem id passInput remember v).2.keyExpiry = none := by
  simp [viewItem, hkey, hitem, hfail, clearKeyCache]

/-- C9 witness: a cached key and a row that does not authenticate under
it. -/
theorem viewItem_decrypt_failure_clears_cache_witness :
    (viewItem 1 none false vaultC9).1 = none ∧
    (viewItem 1 none false vaultC9).2.cachedKey = none ∧
    (viewItem 1 none false vaultC9).2.keyExpiry = none :=
  viewItem_decrypt_failure_clears_cache 1 none false vaultC9 keyW vaultC9
    entryBad rfl rfl (by decide)

/-- C2: after any number of `addToHistory` calls from the fresh vault, the
entries table never holds more than `MAX_HISTORY = 100` rows; the retained
rows are exactly the last 100 of the unbounded insertion sequence — the
100 most recently inserted — in strictly increasing id order (before each
insertion the oldest rows in ascending id order are deleted so that the
pending insertion lands within the cap). -/
theorem addToHistory_capacity_invariant (ops : List SaveOp) (r : Rng) :
    (runSaves ops (initVault r)).history.length ≤ MAX_HISTORY ∧
    (runSaves ops (initVault r)).history =
      lastN MAX_HISTORY (runSavesUnbounded ops (initVault r)).history ∧
    List.Pairwise (fun a b => a.id < b.id)
      (runSaves ops (initVault r)).history := by
  have h := runSaves_coupled ops (initVault r)
    (by simp [initVault]) (by simp [initVault])
  have hinit : withHistory (initVault r)
      (lastN MAX_HISTORY (initVault r).history) = initVault r := rfl
  rw [hinit] at h
  have hM : MAX_HISTORY = 100 := rfl
  refine ⟨?_, ?_, ?_⟩
  · rw [h.1]
    simp only [withHistory]
    rw [length_lastN]
    omega
  · rw [h.1]
    rfl
  · rw [h.1]
    exact lastN_pairwise _ _ h.2.1

end Starpass
